import Mathlib

/-!
Verification of the ServoSweeper micro:bit extension (src/main.ts).

Shallow embedding conventions:
* TypeScript `number` is modelled as `ℚ` (exact rational arithmetic; all
  constants of the program — 0.5, 2.5, 180, 100/speed — are exactly
  representable, and every value the program computes from rational inputs
  stays rational).
* `Math.constrain(x, lo, hi)` is `constrain x lo hi = min (max x lo) hi`.
* `Math.round` (JavaScript round-half-up) is `jsRound x = ⌊x + 1/2⌋`.
* Pin writes are reified as a `PinAction` value returned next to the new
  state (`pins.servoWritePin` vs `pins.analogWritePin` are distinct
  constructors).
* The `while` loop of `Servo.sweep` is executed by a fuel-indexed step
  function `sweepRun`; it returns the final loop state together with a
  Bool that is `true` iff the loop actually exited (by its condition or by
  the polled button) rather than running out of fuel.  `basic.pause` has
  no observable effect on the modelled state and is dropped; the button
  reads are an input trace `btn : ℕ → Bool` indexed by iteration number.
* The object registry (`servos` / `connectServo`) is modelled as a store
  of servo objects addressed by index (object identity = store index)
  plus a partial map from pin numbers to indices.
-/

namespace ServoSweeper

/-- Constant from src/main.ts: `SERVO_PERIOD_MS = 20`. -/
def SERVO_PERIOD_MS : ℚ := 20

/-- Constant from src/main.ts: `MIN_PULSE_MS = 0.5`. -/
def MIN_PULSE_MS : ℚ := 1/2

/-- Constant from src/main.ts: `MAX_PULSE_MS = 2.5`. -/
def MAX_PULSE_MS : ℚ := 5/2

/-- Constant from src/main.ts: `PULSE_RANGE_MS = MAX_PULSE_MS - MIN_PULSE_MS`. -/
def PULSE_RANGE_MS : ℚ := MAX_PULSE_MS - MIN_PULSE_MS

/-- Constant from src/main.ts: `ANGLE_RANGE = 180`. -/
def ANGLE_RANGE : ℚ := 180

/-- MakeCode `Math.constrain(x, lo, hi)`: clamp `x` into `[lo, hi]`. -/
def constrain (x lo hi : ℚ) : ℚ := min (max x lo) hi

/-- JavaScript `Math.round`: round half up, `⌊x + 1/2⌋`. -/
def jsRound (x : ℚ) : ℤ := ⌊x + 1/2⌋

/-- A write issued to the hardware pin layer.  `servoWrite` is
`pins.servoWritePin`, `analogWrite` is `pins.analogWritePin`, `setPeriod`
is `pins.analogSetPeriod`. -/
inductive PinAction where
  | setPeriod (us : ℚ)
  | servoWrite (pulse : ℤ)
  | analogWrite (v : ℚ)
deriving DecidableEq

/-- The state of one `Servo` object of src/main.ts: the pin it owns, the
stored `currentAngle`, and the `isActive` flag. -/
structure Servo where
  pin : ℕ
  currentAngle : ℚ
  isActive : Bool
deriving DecidableEq

/-- The `Servo` constructor: `currentAngle = 90`, `isActive = false`.
(The constructor's `pins.analogSetPeriod` call is a pure hardware side
effect with no influence on the modelled state.) -/
def newServo (pin : ℕ) : Servo :=
  { pin := pin, currentAngle := 90, isActive := false }

/-- Method `Servo.angleToPulse`: clamp the angle to `[0, ANGLE_RANGE]`, map
linearly into `[MIN_PULSE_MS, MAX_PULSE_MS]` milliseconds and round the
microsecond value. -/
def angleToPulse (angle : ℚ) : ℤ :=
  jsRound ((MIN_PULSE_MS + constrain angle 0 ANGLE_RANGE / ANGLE_RANGE * PULSE_RANGE_MS) * 1000)

/-- Method `Servo.setAngle`: store the clamped angle, write the corresponding
pulse width to the pin, set `isActive`. -/
def Servo.setAngle (s : Servo) (angle : ℚ) : Servo × PinAction :=
  ({ s with currentAngle := constrain angle 0 ANGLE_RANGE, isActive := true },
   PinAction.servoWrite (angleToPulse (constrain angle 0 ANGLE_RANGE)))

/-- Method `Servo.stop`: write 0 with `pins.analogWritePin` (disables the PWM
signal) and clear `isActive`.  `currentAngle` is untouched. -/
def Servo.stop (s : Servo) : Servo × PinAction :=
  ({ s with isActive := false }, PinAction.analogWrite 0)

/-- Method `Servo.getAngle`: return the stored `currentAngle`. -/
def Servo.getAngle (s : Servo) : ℚ := s.currentAngle

/-- The sweep parameter clamping performed at the top of `Servo.sweep`:
angles to `[0, 180]`, speed to `[1, 10]`, cycles to at least 1. -/
def sweepParams (startAngle endAngle speed cycles : ℚ) : ℚ × ℚ × ℚ × ℚ :=
  (constrain startAngle 0 ANGLE_RANGE, constrain endAngle 0 ANGLE_RANGE,
   constrain speed 1 10, max 1 cycles)

/-- The mutable state of the `while` loop inside `Servo.sweep`: the servo
object being driven, the loop locals `current`, `step`, `forward`,
`cycleCount`, plus two history/ghost fields — `iter`, the number of loop
iterations executed so far (indexes the button trace), and `angles`, the
list of arguments passed to `setAngle` so far. `delayMs` is the constant
pause length computed before the loop. -/
structure LoopState where
  servo : Servo
  current : ℚ
  step : ℚ
  forward : Bool
  cycleCount : ℕ
  iter : ℕ
  delayMs : ℤ
  angles : List ℚ

/-- One iteration of the `while` body of `Servo.sweep` (lines 61-78 of
src/main.ts): `setAngle(current)`, pause, advance `current` by `step`,
and on reaching/overshooting a bound reverse `step`, apply the
`current += step * 2` correction, and — only on the forward leg —
increment `cycleCount`. -/
def sweepBody (S E : ℚ) (st : LoopState) : LoopState :=
  match st.forward with
  | true =>
    if E ≤ st.current + st.step ∨ st.current + st.step ≤ S then
      { st with servo := (st.servo.setAngle st.current).1,
                angles := st.angles ++ [st.current],
                iter := st.iter + 1,
                forward := false,
                step := -st.step,
                current := st.current + st.step + -st.step * 2,
                cycleCount := st.cycleCount + 1 }
    else
      { st with servo := (st.servo.setAngle st.current).1,
                angles := st.angles ++ [st.current],
                iter := st.iter + 1,
                current := st.current + st.step }
  | false =>
    if E ≤ st.current + st.step ∨ st.current + st.step ≤ S then
      { st with servo := (st.servo.setAngle st.current).1,
                angles := st.angles ++ [st.current],
                iter := st.iter + 1,
                forward := true,
                step := -st.step,
                current := st.current + st.step + -st.step * 2 }
    else
      { st with servo := (st.servo.setAngle st.current).1,
                angles := st.angles ++ [st.current],
                iter := st.iter + 1,
                current := st.current + st.step }

/-- Fuel-indexed execution of `while (cycleCount < cycles) { body; if
(button) break }`.  Returns the loop state together with `true` iff the
loop exited (condition false, or button poll `btn iter` returned true);
`false` means the fuel ran out with the loop still running. -/
def sweepRun (S E cy : ℚ) (btn : ℕ → Bool) : ℕ → LoopState → LoopState × Bool
  | 0, st => (st, decide (cy ≤ (st.cycleCount : ℚ)))
  | fuel + 1, st =>
    if cy ≤ (st.cycleCount : ℚ) then (st, true)
    else
      if btn st.iter then (sweepBody S E st, true)
      else sweepRun S E cy btn fuel (sweepBody S E st)

/-- The initial loop state of `Servo.sweep`: `current = startAngle`,
`step = startAngle < endAngle ? 1 : -1`, `forward = true`,
`cycleCount = 0`. -/
def sweepInit (s : Servo) (S E : ℚ) (d : ℤ) : LoopState :=
  { servo := s, current := S, step := if S < E then 1 else -1,
    forward := true, cycleCount := 0, iter := 0, delayMs := d, angles := [] }

/-- Method `Servo.sweep`: clamp the parameters, compute
`delayMs = round(100 / speed)`, and run the stepped ping-pong loop.
`btn` is the trace of `input.buttonIsPressed(Button.A)` polls and `fuel`
bounds the number of modelled iterations. -/
def Servo.sweep (s : Servo) (startAngle endAngle speed cycles : ℚ)
    (btn : ℕ → Bool) (fuel : ℕ) : LoopState × Bool :=
  sweepRun (sweepParams startAngle endAngle speed cycles).1
    (sweepParams startAngle endAngle speed cycles).2.1
    (sweepParams startAngle endAngle speed cycles).2.2.2 btn fuel
    (sweepInit s (sweepParams startAngle endAngle speed cycles).1
      (sweepParams startAngle endAngle speed cycles).2.1
      (jsRound (100 / (sweepParams startAngle endAngle speed cycles).2.2.1)))

/-- Fuel that will be shown sufficient for `sweepRun` to exit on its own:
one unit per iteration of a ranking function built from the cycle budget
and the ceiling of the angular distance. -/
def sweepFuel (S E cy : ℚ) : ℕ :=
  ⌈cy⌉.toNat * (2 * ⌈E - S⌉.toNat + 3) + ⌈E - S⌉.toNat + 1

/-- The fuel `sweepFuel` applied to the clamped parameters actually used by
`Servo.sweep`. -/
def sweepFuelFor (startAngle endAngle cycles : ℚ) : ℕ :=
  sweepFuel (constrain startAngle 0 ANGLE_RANGE) (constrain endAngle 0 ANGLE_RANGE)
    (max 1 cycles)

/-- Loop invariant of the sweep body in the regime `S < E`: on the
forward leg `step = 1` and `current` lies in `[S, E + 1)`; on the
backward leg `step = -1` and `current` lies in `[S - 1, E)`. -/
def InvA (S E : ℚ) (st : LoopState) : Prop :=
  (st.forward = true → st.step = 1 ∧ S ≤ st.current ∧ st.current < E + 1) ∧
  (st.forward = false → st.step = -1 ∧ S - 1 ≤ st.current ∧ st.current < E)

/-- Loop invariant in the degenerate regime `E ≤ S`: the loop is
2-periodic, alternating between `(forward, step = -1, current = S)` and
`(backward, step = 1, current = S + 1)`. -/
def InvB (S : ℚ) (st : LoopState) : Prop :=
  (st.forward = true → st.step = -1 ∧ st.current = S) ∧
  (st.forward = false → st.step = 1 ∧ st.current = S + 1)

/-- Combined sweep-loop invariant. -/
def Inv (S E : ℚ) (st : LoopState) : Prop :=
  (S < E ∧ InvA S E st) ∨ (E ≤ S ∧ InvB S st)

/-- Phase component of the ranking function: remaining distance of the
forward leg, or remaining distance of the backward leg padded by a full
forward leg (the backward leg runs before the next increment). -/
def offs (S E : ℚ) (st : LoopState) : ℕ :=
  if st.forward = true then ⌈E - st.current⌉.toNat
  else ⌈st.current - S⌉.toNat + ⌈E - S⌉.toNat + 1

/-- Ranking function of the sweep loop: lexicographic combination of the
remaining cycle budget and the phase distance, flattened into ℕ. -/
def meas (S E cy : ℚ) (st : LoopState) : ℕ :=
  (⌈cy⌉.toNat - st.cycleCount) * (2 * ⌈E - S⌉.toNat + 3) + offs S E st

/-- The `servos` registry together with the object heap: `store` is the
list of all `Servo` objects ever constructed (a store index is an object
identity), `registry` maps a pin number to the index of its servo, if one
was already connected. -/
structure World where
  store : List Servo
  registry : ℕ → Option ℕ

/-- The initial registry: `let servos = {}`. -/
def World.empty : World := ⟨[], fun _ => none⟩

/-- Function `connectServo(pin)`: return the existing servo for `pin`, or
construct one, record it under `pin`, and return it.  The returned ℕ is
the store index (object identity) of the servo handed to the caller. -/
def connectServo (w : World) (pin : ℕ) : World × ℕ :=
  match w.registry pin with
  | some i => (w, i)
  | none =>
    ({ store := w.store ++ [newServo pin],
       registry := fun p => if p = pin then some w.store.length else w.registry p },
     w.store.length)

/-- Update the element at index `i` of a store, leaving everything else
unchanged (mutation of one heap object). -/
def storeModify : List Servo → ℕ → (Servo → Servo) → List Servo
  | [], _, _ => []
  | s :: rest, 0, f => f s :: rest
  | s :: rest, n + 1, f => s :: storeModify rest n f

/-- Calling `setAngle` on the servo object with identity `h`. -/
def World.setAngle (w : World) (h : ℕ) (a : ℚ) : World :=
  { w with store := storeModify w.store h (fun s => (s.setAngle a).1) }

/-- Well-formedness of a registry world: every registered index points
into the store, and no two pins share an object. -/
def WF (w : World) : Prop :=
  (∀ p i, w.registry p = some i → i < w.store.length) ∧
  (∀ p q i, w.registry p = some i → w.registry q = some i → p = q)

/-- One public operation on a single servo controller, with arbitrary
arguments (a sweep also carries its button trace and a fuel bound). -/
inductive ServoOp where
  | setAngle (a : ℚ)
  | sweep (startAngle endAngle speed cycles : ℚ) (btn : ℕ → Bool) (fuel : ℕ)
  | stop
  | getAngle

/-- Apply one operation to a servo's state. -/
def applyOp (s : Servo) : ServoOp → Servo
  | .setAngle a => (s.setAngle a).1
  | .sweep a b sp c btn fuel => ((Servo.sweep s a b sp c btn fuel).1).servo
  | .stop => (s.stop).1
  | .getAngle => s

/-- A servo's stored angle is inside the legal range `[0, 180]`. -/
def angleOK (s : Servo) : Prop :=
  0 ≤ s.currentAngle ∧ s.currentAngle ≤ ANGLE_RANGE

/-! ## Theorems -/

theorem constrain_bounds (x lo hi : ℚ) (h : lo ≤ hi) :
    lo ≤ constrain x lo hi ∧ constrain x lo hi ≤ hi :=
  ⟨le_min (le_max_right x lo) h, min_le_right _ _⟩

/-- C1: for every numeric input, `angleToPulse` is monotonically
non-decreasing in the clamped angle `constrain a 0 180`, and its values
at the anchor points are `angleToPulse 0 = 500`, `angleToPulse 90 =
1500`, `angleToPulse 180 = 2500` microseconds, per the linear map
`pulseMs = 0.5 + (angle/180) * 2.0` rounded to the nearest whole
microsecond. -/
theorem angleToPulse_monotone_anchors :
    (∀ a b : ℚ, constrain a 0 ANGLE_RANGE ≤ constrain b 0 ANGLE_RANGE →
      angleToPulse a ≤ angleToPulse b) ∧
    angleToPulse 0 = 500 ∧ angleToPulse 90 = 1500 ∧ angleToPulse 180 = 2500 ∧
    (∀ a : ℚ, angleToPulse a =
      jsRound ((1/2 + constrain a 0 180 / 180 * 2) * 1000)) := by
  have hanchor : ∀ x : ℚ, angleToPulse x =
      jsRound ((1/2 + constrain x 0 180 / 180 * 2) * 1000) := by
    intro x
    simp only [angleToPulse, MIN_PULSE_MS, PULSE_RANGE_MS, MAX_PULSE_MS, ANGLE_RANGE]
    norm_num
  refine ⟨fun a b h => ?_,
    by rw [hanchor]; norm_num [jsRound, constrain],
    by rw [hanchor]; norm_num [jsRound, constrain],
    by rw [hanchor]; norm_num [jsRound, constrain], hanchor⟩
  unfold angleToPulse jsRound
  apply Int.floor_le_floor
  simp only [MIN_PULSE_MS, PULSE_RANGE_MS, MAX_PULSE_MS, ANGLE_RANGE] at h ⊢
  linarith

/-- Witness for C1 at a concrete input: the clamped angles of 0 and 90
are ordered, and so are the pulses. -/
theorem angleToPulse_monotone_anchors_witness :
    constrain 0 0 ANGLE_RANGE ≤ constrain 90 0 ANGLE_RANGE ∧
    angleToPulse 0 ≤ angleToPulse 90 :=
  ⟨by decide, angleToPulse_monotone_anchors.1 0 90 (by decide)⟩

/-- C2: after `setAngle a`, `getAngle` returns `constrain a 0 180`, for
all inputs including out-of-range ones; in particular `setAngle (-10)`
yields 0 and `setAngle 200` yields 180.  (`Servo.setAngle` is a total
function: out-of-range inputs are clamped, never rejected.) -/
theorem setAngle_getAngle_clamped :
    (∀ (s : Servo) (a : ℚ), ((s.setAngle a).1).getAngle = constrain a 0 ANGLE_RANGE) ∧
    (∀ s : Servo, ((s.setAngle (-10)).1).getAngle = 0) ∧
    (∀ s : Servo, ((s.setAngle 200).1).getAngle = 180) := by
  refine ⟨fun s a => rfl, fun s => ?_, fun s => ?_⟩
  · show constrain (-10) 0 ANGLE_RANGE = 0
    decide
  · show constrain 200 0 ANGLE_RANGE = 180
    decide

/-- C7: `stop` leaves `currentAngle` (hence `getAngle`) and `pin`
unchanged, sets `isActive := false`, and issues the disable write
`analogWrite 0`, which is distinct from every angle-driven
`servoWrite` pulse. -/
theorem stop_frame_effect :
    ∀ s : Servo,
      (s.stop).1.currentAngle = s.currentAngle ∧
      (s.stop).1.getAngle = s.getAngle ∧
      (s.stop).1.isActive = false ∧
      (s.stop).1.pin = s.pin ∧
      (s.stop).2 = PinAction.analogWrite 0 ∧
      (∀ (s' : Servo) (a : ℚ), (s.stop).2 ≠ (s'.setAngle a).2) := by
  intro s
  refine ⟨rfl, rfl, rfl, rfl, rfl, fun s' a => ?_⟩
  simp [Servo.stop, Servo.setAngle]

/-- C8: no exposed operation signals an error for numeric input: `sweep`
clamps `startAngle`/`endAngle` to `[0,180]` and `speed` to `[1,10]`,
raises `cycles` to a floor of 1 with no upper clamp (any `cycles ≥ 1`
passes through unchanged), and `setAngle` silently clamps its angle; all
the modelled operations are total functions with no error value. -/
theorem sweep_clamping_no_error :
    ∀ a b sp c : ℚ,
      0 ≤ (sweepParams a b sp c).1 ∧ (sweepParams a b sp c).1 ≤ ANGLE_RANGE ∧
      0 ≤ (sweepParams a b sp c).2.1 ∧ (sweepParams a b sp c).2.1 ≤ ANGLE_RANGE ∧
      1 ≤ (sweepParams a b sp c).2.2.1 ∧ (sweepParams a b sp c).2.2.1 ≤ 10 ∧
      1 ≤ (sweepParams a b sp c).2.2.2 ∧
      (1 ≤ c → (sweepParams a b sp c).2.2.2 = c) ∧
      (∀ s : Servo, ((s.setAngle a).1).currentAngle = constrain a 0 ANGLE_RANGE) := by
  intro a b sp c
  have hr : (0:ℚ) ≤ ANGLE_RANGE := by norm_num [ANGLE_RANGE]
  have h1 := constrain_bounds a 0 ANGLE_RANGE hr
  have h2 := constrain_bounds b 0 ANGLE_RANGE hr
  have h3 := constrain_bounds sp 1 10 (by norm_num)
  exact ⟨h1.1, h1.2, h2.1, h2.2, h3.1, h3.2, le_max_left 1 c,
    fun hc => max_eq_right hc, fun s => rfl⟩

/-- Witness for C8 at concrete out-of-range inputs: with
`cycles = 100 ≥ 1` the cycle count passes through unclamped. -/
theorem sweep_clamping_no_error_witness :
    (1:ℚ) ≤ 100 ∧ (sweepParams (-10) 200 0 100).2.2.2 = 100 :=
  ⟨by norm_num, (sweep_clamping_no_error (-10) 200 0 100).2.2.2.2.2.2.2.1 (by norm_num)⟩

theorem connectServo_some (w : World) (pin i : ℕ) (h : w.registry pin = some i) :
    connectServo w pin = (w, i) := by
  unfold connectServo
  rw [h]

theorem connectServo_none (w : World) (pin : ℕ) (h : w.registry pin = none) :
    connectServo w pin =
      ({ store := w.store ++ [newServo pin],
         registry := fun p => if p = pin then some w.store.length else w.registry p },
       w.store.length) := by
  unfold connectServo
  rw [h]

theorem WF_empty : WF World.empty := by
  constructor
  · intro p i h
    simp [World.empty] at h
  · intro p q i hp hq
    simp [World.empty] at hp

theorem connect_WF (w : World) (pin : ℕ) (hWF : WF w) : WF (connectServo w pin).1 := by
  rcases hWF with ⟨hb, hi⟩
  cases hreg : w.registry pin with
  | some i => rw [connectServo_some w pin i hreg]; exact ⟨hb, hi⟩
  | none =>
    rw [connectServo_none w pin hreg]
    constructor
    · intro p j hj
      simp only [List.length_append, List.length_cons, List.length_nil]
      by_cases hp : p = pin
      · simp only [hp, if_pos rfl] at hj
        cases hj
        omega
      · simp only [if_neg hp] at hj
        have := hb p j hj
        omega
    · intro p q j hp hq
      by_cases hpp : p = pin <;> by_cases hqq : q = pin
      · rw [hpp, hqq]
      · simp only [if_pos hpp] at hp
        simp only [if_neg hqq] at hq
        have := hb q j hq
        cases hp
        omega
      · simp only [if_neg hpp] at hp
        simp only [if_pos hqq] at hq
        have := hb p j hp
        cases hq
        omega
      · simp only [if_neg hpp] at hp
        simp only [if_neg hqq] at hq
        exact hi p q j hp hq

theorem connect_handles_ne (w : World) (p q : ℕ) (hWF : WF w) (hpq : p ≠ q) :
    (connectServo w p).2 ≠ (connectServo (connectServo w p).1 q).2 := by
  rcases hWF with ⟨hb, hi⟩
  cases hp : w.registry p with
  | some i =>
    rw [connectServo_some w p i hp]
    cases hq : w.registry q with
    | some j =>
      rw [connectServo_some w q j hq]
      show i ≠ j
      intro hij
      exact hpq (hi p q i hp (by rw [hij]; exact hq))
    | none =>
      rw [connectServo_none w q hq]
      have := hb p i hp
      show i ≠ w.store.length
      omega
  | none =>
    rw [connectServo_none w p hp]
    have hq' : (if q = p then some w.store.length else w.registry q) = w.registry q :=
      if_neg (fun h => hpq h.symm)
    cases hq : w.registry q with
    | some j =>
      rw [connectServo_some _ q j (hq'.trans hq)]
      have := hb q j hq
      show w.store.length ≠ j
      omega
    | none =>
      rw [connectServo_none _ q (hq'.trans hq)]
      show w.store.length ≠ (w.store ++ [newServo p]).length
      simp

theorem storeModify_get_ne (l : List Servo) (i j : ℕ) (f : Servo → Servo)
    (h : i ≠ j) : (storeModify l i f).get? j = l.get? j := by
  induction l generalizing i j with
  | nil => rfl
  | cons s rest ih =>
    cases i with
    | zero =>
      cases j with
      | zero => exact absurd rfl h
      | succ j => rfl
    | succ i =>
      cases j with
      | zero => rfl
      | succ j =>
        show (storeModify rest i f).get? j = rest.get? j
        exact ih i j (by omega)

/-- C6: `connectServo` is idempotent on controller identity — a second
`connectServo` call with the same pin returns the same world and the
same servo identity; with two distinct pins (in a well-formed world) the
identities differ, and `setAngle` through one pin's handle leaves the
other pin's stored servo object untouched. -/
theorem connect_idempotent_distinct :
    (∀ (w : World) (pin : ℕ),
      (connectServo (connectServo w pin).1 pin).1 = (connectServo w pin).1 ∧
      (connectServo (connectServo w pin).1 pin).2 = (connectServo w pin).2) ∧
    (∀ (w : World) (p q : ℕ), WF w → p ≠ q →
      (connectServo w p).2 ≠ (connectServo (connectServo w p).1 q).2) ∧
    (∀ (w : World) (p q : ℕ) (a : ℚ), WF w → p ≠ q →
      ((connectServo (connectServo w p).1 q).1.setAngle (connectServo w p).2 a).store.get?
          (connectServo (connectServo w p).1 q).2 =
        (connectServo (connectServo w p).1 q).1.store.get?
          (connectServo (connectServo w p).1 q).2) := by
  refine ⟨fun w pin => ?_, fun w p q hWF hpq => connect_handles_ne w p q hWF hpq,
    fun w p q a hWF hpq => ?_⟩
  · cases hreg : w.registry pin with
    | some i =>
      rw [connectServo_some w pin i hreg]
      rw [connectServo_some w pin i hreg]
      exact ⟨rfl, rfl⟩
    | none =>
      rw [connectServo_none w pin hreg]
      rw [connectServo_some _ pin w.store.length (by simp)]
      exact ⟨rfl, rfl⟩
  · exact storeModify_get_ne _ _ _ _ (connect_handles_ne w p q hWF hpq)

/-- Witness for C6 on the empty world with pins 0 and 1. -/
theorem connect_idempotent_distinct_witness :
    WF World.empty ∧ (0 : ℕ) ≠ 1 ∧
    (connectServo World.empty 0).2 ≠ (connectServo (connectServo World.empty 0).1 1).2 ∧
    ((connectServo (connectServo World.empty 0).1 1).1.setAngle
        (connectServo World.empty 0).2 17).store.get?
        (connectServo (connectServo World.empty 0).1 1).2 =
      (connectServo (connectServo World.empty 0).1 1).1.store.get?
        (connectServo (connectServo World.empty 0).1 1).2 :=
  ⟨WF_empty, by decide,
    connect_idempotent_distinct.2.1 World.empty 0 1 WF_empty (by decide),
    connect_idempotent_distinct.2.2 World.empty 0 1 17 WF_empty (by decide)⟩

theorem sweepBody_fwd_pos (S E : ℚ) (st : LoopState) (hf : st.forward = true)
    (hc : E ≤ st.current + st.step ∨ st.current + st.step ≤ S) :
    sweepBody S E st =
      { st with servo := (st.servo.setAngle st.current).1,
                angles := st.angles ++ [st.current],
                iter := st.iter + 1,
                forward := false,
                step := -st.step,
                current := st.current + st.step + -st.step * 2,
                cycleCount := st.cycleCount + 1 } := by
  simp only [sweepBody, hf]
  rw [if_pos hc]

theorem sweepBody_fwd_neg (S E : ℚ) (st : LoopState) (hf : st.forward = true)
    (hc : ¬(E ≤ st.current + st.step ∨ st.current + st.step ≤ S)) :
    sweepBody S E st =
      { st with servo := (st.servo.setAngle st.current).1,
                angles := st.angles ++ [st.current],
                iter := st.iter + 1,
                current := st.current + st.step } := by
  simp only [sweepBody, hf]
  rw [if_neg hc]

theorem sweepBody_bwd_pos (S E : ℚ) (st : LoopState) (hf : st.forward = false)
    (hc : E ≤ st.current + st.step ∨ st.current + st.step ≤ S) :
    sweepBody S E st =
      { st with servo := (st.servo.setAngle st.current).1,
                angles := st.angles ++ [st.current],
                iter := st.iter + 1,
                forward := true,
                step := -st.step,
                current := st.current + st.step + -st.step * 2 } := by
  simp only [sweepBody, hf]
  rw [if_pos hc]

theorem sweepBody_bwd_neg (S E : ℚ) (st : LoopState) (hf : st.forward = false)
    (hc : ¬(E ≤ st.current + st.step ∨ st.current + st.step ≤ S)) :
    sweepBody S E st =
      { st with servo := (st.servo.setAngle st.current).1,
                angles := st.angles ++ [st.current],
                iter := st.iter + 1,
                current := st.current + st.step } := by
  simp only [sweepBody, hf]
  rw [if_neg hc]

theorem sweepBody_iter (S E : ℚ) (st : LoopState) :
    (sweepBody S E st).iter = st.iter + 1 := by
  cases hf : st.forward with
  | true =>
    by_cases hc : E ≤ st.current + st.step ∨ st.current + st.step ≤ S
    · rw [sweepBody_fwd_pos S E st hf hc]
    · rw [sweepBody_fwd_neg S E st hf hc]
  | false =>
    by_cases hc : E ≤ st.current + st.step ∨ st.current + st.step ≤ S
    · rw [sweepBody_bwd_pos S E st hf hc]
    · rw [sweepBody_bwd_neg S E st hf hc]

theorem sweepBody_servo (S E : ℚ) (st : LoopState) :
    (sweepBody S E st).servo = (st.servo.setAngle st.current).1 := by
  cases hf : st.forward with
  | true =>
    by_cases hc : E ≤ st.current + st.step ∨ st.current + st.step ≤ S
    · rw [sweepBody_fwd_pos S E st hf hc]
    · rw [sweepBody_fwd_neg S E st hf hc]
  | false =>
    by_cases hc : E ≤ st.current + st.step ∨ st.current + st.step ≤ S
    · rw [sweepBody_bwd_pos S E st hf hc]
    · rw [sweepBody_bwd_neg S E st hf hc]

theorem sweepBody_count_le (S E : ℚ) (st : LoopState) :
    st.cycleCount ≤ (sweepBody S E st).cycleCount ∧
    (sweepBody S E st).cycleCount ≤ st.cycleCount + 1 := by
  cases hf : st.forward with
  | true =>
    by_cases hc : E ≤ st.current + st.step ∨ st.current + st.step ≤ S
    · rw [sweepBody_fwd_pos S E st hf hc]
      exact ⟨Nat.le_succ _, le_refl _⟩
    · rw [sweepBody_fwd_neg S E st hf hc]
      exact ⟨le_refl _, Nat.le_succ _⟩
  | false =>
    by_cases hc : E ≤ st.current + st.step ∨ st.current + st.step ≤ S
    · rw [sweepBody_bwd_pos S E st hf hc]
      exact ⟨le_refl _, Nat.le_succ _⟩
    · rw [sweepBody_bwd_neg S E st hf hc]
      exact ⟨le_refl _, Nat.le_succ _⟩

theorem sweepRun_succ (S E cy : ℚ) (btn : ℕ → Bool) (fuel : ℕ) (st : LoopState) :
    sweepRun S E cy btn (fuel + 1) st =
      if cy ≤ (st.cycleCount : ℚ) then (st, true)
      else
        if btn st.iter then (sweepBody S E st, true)
        else sweepRun S E cy btn fuel (sweepBody S E st) := rfl

theorem offs_fwd (S E : ℚ) (st : LoopState) (h : st.forward = true) :
    offs S E st = ⌈E - st.current⌉.toNat := by simp [offs, h]

theorem offs_bwd (S E : ℚ) (st : LoopState) (h : st.forward = false) :
    offs S E st = ⌈st.current - S⌉.toNat + ⌈E - S⌉.toNat + 1 := by simp [offs, h]

theorem meas_step_mul (A B u v : ℕ) (h : u < B + v) : A * B + u < (A + 1) * B + v := by
  calc A * B + u < A * B + (B + v) := Nat.add_lt_add_left h _
    _ = (A + 1) * B + v := by ring

theorem Inv_sweepBody (S E : ℚ) (st : LoopState) (h : Inv S E st) :
    Inv S E (sweepBody S E st) := by
  rcases h with ⟨hSE, hA⟩ | ⟨hES, hB⟩
  · refine Or.inl ⟨hSE, ?_⟩
    cases hf : st.forward with
    | true =>
      obtain ⟨hstep, hlo, hhi⟩ := hA.1 hf
      by_cases hc : E ≤ st.current + st.step ∨ st.current + st.step ≤ S
      · rw [sweepBody_fwd_pos S E st hf hc]
        refine ⟨fun hft => Bool.noConfusion hft, fun hfb => ⟨?_, ?_, ?_⟩⟩
        · show -st.step = -1
          rw [hstep]
        · show S - 1 ≤ st.current + st.step + -st.step * 2
          rw [hstep]; linarith
        · show st.current + st.step + -st.step * 2 < E
          rw [hstep]; linarith
      · rw [sweepBody_fwd_neg S E st hf hc]
        push_neg at hc
        refine ⟨fun hft => ⟨hstep, ?_, ?_⟩, fun hfb => ?_⟩
        · show S ≤ st.current + st.step
          linarith [hc.2]
        · show st.current + st.step < E + 1
          linarith [hc.1]
        · exact Bool.noConfusion (hf.symm.trans hfb)
    | false =>
      obtain ⟨hstep, hlo, hhi⟩ := hA.2 hf
      by_cases hc : E ≤ st.current + st.step ∨ st.current + st.step ≤ S
      · rw [sweepBody_bwd_pos S E st hf hc]
        refine ⟨fun hft => ⟨?_, ?_, ?_⟩, fun hfb => Bool.noConfusion hfb⟩
        · show -st.step = 1
          rw [hstep]; norm_num
        · show S ≤ st.current + st.step + -st.step * 2
          rw [hstep]; linarith
        · show st.current + st.step + -st.step * 2 < E + 1
          rw [hstep]; linarith
      · rw [sweepBody_bwd_neg S E st hf hc]
        push_neg at hc
        refine ⟨fun hft => ?_, fun hfb => ⟨hstep, ?_, ?_⟩⟩
        · exact Bool.noConfusion (hf.symm.trans hft)
        · show S - 1 ≤ st.current + st.step
          linarith [hc.2]
        · show st.current + st.step < E
          exact hc.1
  · refine Or.inr ⟨hES, ?_⟩
    cases hf : st.forward with
    | true =>
      obtain ⟨hstep, hcur⟩ := hB.1 hf
      have hc : E ≤ st.current + st.step ∨ st.current + st.step ≤ S :=
        Or.inr (by rw [hstep, hcur]; linarith)
      rw [sweepBody_fwd_pos S E st hf hc]
      refine ⟨fun hft => Bool.noConfusion hft, fun hfb => ⟨?_, ?_⟩⟩
      · show -st.step = 1
        rw [hstep]; norm_num
      · show st.current + st.step + -st.step * 2 = S + 1
        rw [hstep, hcur]; ring
    | false =>
      obtain ⟨hstep, hcur⟩ := hB.2 hf
      have hc : E ≤ st.current + st.step ∨ st.current + st.step ≤ S :=
        Or.inl (by rw [hstep, hcur]; linarith)
      rw [sweepBody_bwd_pos S E st hf hc]
      refine ⟨fun hft => ⟨?_, ?_⟩, fun hfb => Bool.noConfusion hfb⟩
      · show -st.step = -1
        rw [hstep]
      · show st.current + st.step + -st.step * 2 = S
        rw [hstep, hcur]; ring

theorem Inv_sweepInit (s : Servo) (S E : ℚ) (d : ℤ) : Inv S E (sweepInit s S E d) := by
  by_cases hSE : S < E
  · refine Or.inl ⟨hSE, fun hft => ⟨?_, le_refl S, by show S < E + 1; linarith⟩,
      fun hfb => Bool.noConfusion hfb⟩
    show (if S < E then (1:ℚ) else -1) = 1
    rw [if_pos hSE]
  · refine Or.inr ⟨le_of_not_lt hSE, fun hft => ⟨?_, rfl⟩,
      fun hfb => Bool.noConfusion hfb⟩
    show (if S < E then (1:ℚ) else -1) = -1
    rw [if_neg hSE]

theorem meas_sweepBody (S E cy : ℚ) (st : LoopState) (hInv : Inv S E st)
    (hcnt : st.cycleCount < ⌈cy⌉.toNat) :
    meas S E cy (sweepBody S E st) < meas S E cy st := by
  rcases hInv with ⟨hSE, hA⟩ | ⟨hES, hB⟩
  · cases hf : st.forward with
    | true =>
      obtain ⟨hstep, hlo, hhi⟩ := hA.1 hf
      by_cases hc : E ≤ st.current + st.step ∨ st.current + st.step ≤ S
      · rw [sweepBody_fwd_pos S E st hf hc]
        simp only [meas]
        rw [offs_bwd S E _ rfl, offs_fwd S E st hf]
        simp only
        have h1 : ⌈st.current + st.step + -st.step * 2 - S⌉ ≤ ⌈E - S⌉ :=
          Int.ceil_le_ceil (by rw [hstep]; linarith)
        have hm : ⌈cy⌉.toNat - st.cycleCount = (⌈cy⌉.toNat - (st.cycleCount + 1)) + 1 := by
          omega
        rw [hm]
        exact meas_step_mul _ _ _ _ (by omega)
      · rw [sweepBody_fwd_neg S E st hf hc]
        push_neg at hc
        simp only [meas]
        rw [offs_fwd S E _ (by show st.forward = true; exact hf), offs_fwd S E st hf]
        simp only
        have h1 : ⌈E - (st.current + st.step)⌉ = ⌈E - st.current⌉ - 1 := by
          have e1 : E - (st.current + st.step) = E - st.current - 1 := by rw [hstep]; ring
          rw [e1, Int.ceil_sub_one]
        have h2 : (1:ℤ) ≤ ⌈E - st.current⌉ := by
          rw [Int.le_ceil_iff]
          push_cast
          rw [hstep] at hc
          linarith [hc.1]
        omega
    | false =>
      obtain ⟨hstep, hlo, hhi⟩ := hA.2 hf
      by_cases hc : E ≤ st.current + st.step ∨ st.current + st.step ≤ S
      · rw [sweepBody_bwd_pos S E st hf hc]
        simp only [meas]
        rw [offs_fwd S E _ rfl, offs_bwd S E st hf]
        simp only
        have h1 : ⌈E - (st.current + st.step + -st.step * 2)⌉ ≤ ⌈E - S⌉ :=
          Int.ceil_le_ceil (by rw [hstep]; linarith)
        omega
      · rw [sweepBody_bwd_neg S E st hf hc]
        push_neg at hc
        simp only [meas]
        rw [offs_bwd S E _ (by show st.forward = false; exact hf), offs_bwd S E st hf]
        simp only
        have h1 : ⌈st.current + st.step - S⌉ = ⌈st.current - S⌉ - 1 := by
          have e1 : st.current + st.step - S = st.current - S - 1 := by rw [hstep]; ring
          rw [e1, Int.ceil_sub_one]
        have h2 : (1:ℤ) ≤ ⌈st.current - S⌉ := by
          rw [Int.le_ceil_iff]
          push_cast
          rw [hstep] at hc
          linarith [hc.2]
        omega
  · cases hf : st.forward with
    | true =>
      obtain ⟨hstep, hcur⟩ := hB.1 hf
      have hc : E ≤ st.current + st.step ∨ st.current + st.step ≤ S :=
        Or.inr (by rw [hstep, hcur]; linarith)
      rw [sweepBody_fwd_pos S E st hf hc]
      simp only [meas]
      rw [offs_bwd S E _ rfl, offs_fwd S E st hf]
      simp only
      have e1 : st.current + st.step + -st.step * 2 - S = 1 := by rw [hstep, hcur]; ring
      rw [e1, hcur]
      have hm : ⌈cy⌉.toNat - st.cycleCount = (⌈cy⌉.toNat - (st.cycleCount + 1)) + 1 := by
        omega
      rw [hm]
      refine meas_step_mul _ _ _ _ ?_
      have h1 : ⌈(1:ℚ)⌉ = 1 := Int.ceil_one
      omega
    | false =>
      obtain ⟨hstep, hcur⟩ := hB.2 hf
      have hc : E ≤ st.current + st.step ∨ st.current + st.step ≤ S :=
        Or.inl (by rw [hstep, hcur]; linarith)
      rw [sweepBody_bwd_pos S E st hf hc]
      simp only [meas]
      rw [offs_fwd S E _ rfl, offs_bwd S E st hf]
      simp only
      have e1 : E - (st.current + st.step + -st.step * 2) = E - S := by
        rw [hstep, hcur]; ring
      rw [e1]
      omega

theorem sweepRun_done (S E cy : ℚ) (btn : ℕ → Bool) :
    ∀ (fuel : ℕ) (st : LoopState), Inv S E st → meas S E cy st < fuel →
      (sweepRun S E cy btn fuel st).2 = true := by
  intro fuel
  induction fuel with
  | zero => intro st hInv hm; omega
  | succ n ih =>
    intro st hInv hm
    rw [sweepRun_succ]
    by_cases hstop : cy ≤ (st.cycleCount : ℚ)
    · rw [if_pos hstop]
    · rw [if_neg hstop]
      by_cases hbtn : btn st.iter = true
      · rw [if_pos hbtn]
      · rw [if_neg hbtn]
        have hcnt : st.cycleCount < ⌈cy⌉.toNat := by
          have h1 : ((st.cycleCount : ℤ) : ℚ) < cy := by
            push_cast
            exact lt_of_not_le hstop
          have h2 : (st.cycleCount : ℤ) < ⌈cy⌉ := Int.lt_ceil.mpr h1
          omega
        have h3 := meas_sweepBody S E cy st hInv hcnt
        exact ih (sweepBody S E st) (Inv_sweepBody S E st hInv) (by omega)

theorem meas_init (s : Servo) (S E cy : ℚ) (d : ℤ) :
    meas S E cy (sweepInit s S E d) < sweepFuel S E cy := by
  simp only [meas, sweepFuel, sweepInit]
  rw [offs_fwd S E _ rfl]
  simp only [Nat.sub_zero]
  omega

theorem Servo_sweep_def (s : Servo) (a b sp c : ℚ) (btn : ℕ → Bool) (fuel : ℕ) :
    Servo.sweep s a b sp c btn fuel =
      sweepRun (constrain a 0 ANGLE_RANGE) (constrain b 0 ANGLE_RANGE) (max 1 c) btn fuel
        (sweepInit s (constrain a 0 ANGLE_RANGE) (constrain b 0 ANGLE_RANGE)
          (jsRound (100 / constrain sp 1 10))) := rfl

theorem sweep_always_done (s : Servo) (a b sp c : ℚ) (btn : ℕ → Bool) :
    (Servo.sweep s a b sp c btn (sweepFuelFor a b c)).2 = true := by
  rw [Servo_sweep_def]
  exact sweepRun_done _ _ _ btn _ _ (Inv_sweepInit _ _ _ _) (meas_init _ _ _ _ _)

theorem sweepRun_exit_count (S E cy : ℚ) (fuel : ℕ) :
    ∀ st : LoopState, (st.cycleCount : ℚ) < cy + 1 →
      (sweepRun S E cy (fun _ => false) fuel st).2 = true →
      cy ≤ ((sweepRun S E cy (fun _ => false) fuel st).1.cycleCount : ℚ) ∧
      ((sweepRun S E cy (fun _ => false) fuel st).1.cycleCount : ℚ) < cy + 1 := by
  induction fuel with
  | zero =>
    intro st hlt hdone
    exact ⟨of_decide_eq_true hdone, hlt⟩
  | succ n ih =>
    intro st hlt hdone
    rw [sweepRun_succ] at hdone ⊢
    by_cases hstop : cy ≤ (st.cycleCount : ℚ)
    · rw [if_pos hstop] at hdone ⊢
      exact ⟨hstop, hlt⟩
    · rw [if_neg hstop] at hdone ⊢
      rw [if_neg (by simp)] at hdone ⊢
      have hle := sweepBody_count_le S E st
      have hlt' : ((sweepBody S E st).cycleCount : ℚ) < cy + 1 := by
        have h1 : (st.cycleCount : ℚ) < cy := lt_of_not_le hstop
        have h3 : ((sweepBody S E st).cycleCount : ℚ) ≤ (st.cycleCount : ℚ) + 1 := by
          exact_mod_cast hle.2
        linarith
      exact ih (sweepBody S E st) hlt' hdone

theorem sweepRun_button (S E cy : ℚ) (btn : ℕ → Bool) (N : ℕ)
    (hb : ∀ n, N ≤ n → btn n = true) :
    ∀ (fuel : ℕ) (st : LoopState), 1 ≤ fuel → N + 2 ≤ fuel + st.iter →
      (sweepRun S E cy btn fuel st).2 = true ∧
      (sweepRun S E cy btn fuel st).1.iter ≤ max (st.iter + 1) (N + 1) := by
  intro fuel
  induction fuel with
  | zero => intro st h1 h2; omega
  | succ n ih =>
    intro st h1 h2
    rw [sweepRun_succ]
    by_cases hstop : cy ≤ (st.cycleCount : ℚ)
    · rw [if_pos hstop]
      exact ⟨rfl, le_trans (Nat.le_succ _) (Nat.le_max_left _ _)⟩
    · rw [if_neg hstop]
      by_cases hbtn : btn st.iter = true
      · rw [if_pos hbtn]
        refine ⟨rfl, ?_⟩
        show (sweepBody S E st).iter ≤ max (st.iter + 1) (N + 1)
        rw [sweepBody_iter]
        exact Nat.le_max_left _ _
      · rw [if_neg hbtn]
        have hiterN : st.iter < N := by
          by_contra hge
          push_neg at hge
          exact hbtn (hb st.iter hge)
        have h1n : 1 ≤ n := by omega
        have h2n : N + 2 ≤ n + (sweepBody S E st).iter := by
          rw [sweepBody_iter]; omega
        obtain ⟨hd, hi⟩ := ih (sweepBody S E st) h1n h2n
        refine ⟨hd, ?_⟩
        rw [sweepBody_iter] at hi
        have hmax : max (st.iter + 1 + 1) (N + 1) = N + 1 := max_eq_right (by omega)
        rw [hmax] at hi
        exact le_trans hi (Nat.le_max_right _ _)

theorem angleOK_setAngle (s : Servo) (a : ℚ) : angleOK ((s.setAngle a).1) := by
  constructor
  · show (0:ℚ) ≤ constrain a 0 ANGLE_RANGE
    exact (constrain_bounds a 0 ANGLE_RANGE (by norm_num [ANGLE_RANGE])).1
  · show constrain a 0 ANGLE_RANGE ≤ ANGLE_RANGE
    exact (constrain_bounds a 0 ANGLE_RANGE (by norm_num [ANGLE_RANGE])).2

theorem sweepRun_angleOK (S E cy : ℚ) (btn : ℕ → Bool) :
    ∀ (fuel : ℕ) (st : LoopState), angleOK st.servo →
      angleOK ((sweepRun S E cy btn fuel st).1.servo) := by
  intro fuel
  induction fuel with
  | zero => intro st h; exact h
  | succ n ih =>
    intro st h
    rw [sweepRun_succ]
    by_cases hstop : cy ≤ (st.cycleCount : ℚ)
    · rw [if_pos hstop]; exact h
    · rw [if_neg hstop]
      by_cases hbtn : btn st.iter = true
      · rw [if_pos hbtn]
        show angleOK ((sweepBody S E st).servo)
        rw [sweepBody_servo]
        exact angleOK_setAngle _ _
      · rw [if_neg hbtn]
        refine ih (sweepBody S E st) ?_
        rw [sweepBody_servo]
        exact angleOK_setAngle _ _

theorem constrain_eval_zero : constrain 0 0 ANGLE_RANGE = 0 := by
  norm_num [constrain, ANGLE_RANGE, max_def, min_def]

theorem constrain_eval_two : constrain 2 0 ANGLE_RANGE = 2 := by
  norm_num [constrain, ANGLE_RANGE, max_def, min_def]

theorem constrain_eval_oneeighty : constrain 180 0 ANGLE_RANGE = 180 := by
  norm_num [constrain, ANGLE_RANGE, max_def, min_def]

theorem constrain_eval_speed : constrain 5 1 10 = 5 := by
  norm_num [constrain, max_def, min_def]

theorem max_eval_one : max 1 (1:ℚ) = 1 := max_self 1

theorem max_eval_two : max 1 (2:ℚ) = 2 := max_eq_right (by norm_num)

theorem sweepInit_eval_up : sweepInit (newServo 0) 0 2 (jsRound (100 / 5)) =
    { servo := newServo 0, current := 0, step := 1, forward := true,
      cycleCount := 0, iter := 0, delayMs := jsRound (100 / 5), angles := [] } := by
  norm_num [sweepInit]

theorem sweepBody_eval_up1 : sweepBody 0 2
    { servo := newServo 0, current := 0, step := 1, forward := true,
      cycleCount := 0, iter := 0, delayMs := jsRound (100 / 5), angles := [] } =
    { servo := ((newServo 0).setAngle 0).1, current := 1, step := 1, forward := true,
      cycleCount := 0, iter := 1, delayMs := jsRound (100 / 5), angles := [0] } := by
  rw [sweepBody_fwd_neg _ _ _ rfl (by norm_num)]
  norm_num

theorem sweepBody_eval_up2 : sweepBody 0 2
    { servo := ((newServo 0).setAngle 0).1, current := 1, step := 1, forward := true,
      cycleCount := 0, iter := 1, delayMs := jsRound (100 / 5), angles := [0] } =
    { servo := (((newServo 0).setAngle 0).1.setAngle 1).1, current := 0, step := -1,
      forward := false, cycleCount := 1, iter := 2, delayMs := jsRound (100 / 5),
      angles := [0, 1] } := by
  rw [sweepBody_fwd_pos _ _ _ rfl (by norm_num)]
  norm_num

/-- Symbolic execution of `sweep(0, 2, 5, 1)` with the button never
pressed: the loop runs exactly two iterations, writes the angles 0 and 1,
reverses at the upper bound incrementing the counter, and exits. -/
theorem sweep_eval_up : Servo.sweep (newServo 0) 0 2 5 1 (fun _ => false) 5 =
    ({ servo := (((newServo 0).setAngle 0).1.setAngle 1).1, current := 0, step := -1,
       forward := false, cycleCount := 1, iter := 2, delayMs := jsRound (100 / 5),
       angles := [0, 1] }, true) := by
  rw [Servo_sweep_def, constrain_eval_zero, constrain_eval_two, constrain_eval_speed,
    max_eval_one, sweepInit_eval_up]
  rw [show (5:ℕ) = 4 + 1 from rfl, sweepRun_succ]
  rw [if_neg (by norm_num), if_neg (by simp), sweepBody_eval_up1]
  rw [show (4:ℕ) = 3 + 1 from rfl, sweepRun_succ]
  rw [if_neg (by norm_num), if_neg (by simp), sweepBody_eval_up2]
  rw [show (3:ℕ) = 2 + 1 from rfl, sweepRun_succ]
  rw [if_pos (by norm_num)]

theorem sweepInit_eval_down : sweepInit (newServo 0) 180 0 (jsRound (100 / 5)) =
    { servo := newServo 0, current := 180, step := -1, forward := true,
      cycleCount := 0, iter := 0, delayMs := jsRound (100 / 5), angles := [] } := by
  norm_num [sweepInit]

theorem sweepBody_eval_down1 : sweepBody 180 0
    { servo := newServo 0, current := 180, step := -1, forward := true,
      cycleCount := 0, iter := 0, delayMs := jsRound (100 / 5), angles := [] } =
    { servo := ((newServo 0).setAngle 180).1, current := 181, step := 1,
      forward := false, cycleCount := 1, iter := 1, delayMs := jsRound (100 / 5),
      angles := [180] } := by
  rw [sweepBody_fwd_pos _ _ _ rfl (Or.inl (by norm_num))]
  norm_num

theorem sweepBody_eval_down2 : sweepBody 180 0
    { servo := ((newServo 0).setAngle 180).1, current := 181, step := 1,
      forward := false, cycleCount := 1, iter := 1, delayMs := jsRound (100 / 5),
      angles := [180] } =
    { servo := (((newServo 0).setAngle 180).1.setAngle 181).1, current := 180,
      step := -1, forward := true, cycleCount := 1, iter := 2,
      delayMs := jsRound (100 / 5), angles := [180, 181] } := by
  rw [sweepBody_bwd_pos _ _ _ rfl (Or.inl (by norm_num))]
  norm_num

theorem sweepBody_eval_down3 : sweepBody 180 0
    { servo := (((newServo 0).setAngle 180).1.setAngle 181).1, current := 180,
      step := -1, forward := true, cycleCount := 1, iter := 2,
      delayMs := jsRound (100 / 5), angles := [180, 181] } =
    { servo := ((((newServo 0).setAngle 180).1.setAngle 181).1.setAngle 180).1,
      current := 181, step := 1, forward := false, cycleCount := 2, iter := 3,
      delayMs := jsRound (100 / 5), angles := [180, 181, 180] } := by
  rw [sweepBody_fwd_pos _ _ _ rfl (Or.inl (by norm_num))]
  norm_num

/-- Symbolic execution of `sweep(180, 0, 5, 2)` with the button never
pressed: the internal `current` variable reaches 181, outside both
`[0, 180]` and the interval between the two bounds, while the stored
servo angle stays clamped at 180. -/
theorem sweep_eval_down : Servo.sweep (newServo 0) 180 0 5 2 (fun _ => false) 10 =
    ({ servo := ((((newServo 0).setAngle 180).1.setAngle 181).1.setAngle 180).1,
       current := 181, step := 1, forward := false, cycleCount := 2, iter := 3,
       delayMs := jsRound (100 / 5), angles := [180, 181, 180] }, true) := by
  rw [Servo_sweep_def, constrain_eval_oneeighty, constrain_eval_zero, constrain_eval_speed,
    max_eval_two, sweepInit_eval_down]
  rw [show (10:ℕ) = 9 + 1 from rfl, sweepRun_succ]
  rw [if_neg (by norm_num), if_neg (by simp), sweepBody_eval_down1]
  rw [show (9:ℕ) = 8 + 1 from rfl, sweepRun_succ]
  rw [if_neg (by norm_num), if_neg (by simp), sweepBody_eval_down2]
  rw [show (8:ℕ) = 7 + 1 from rfl, sweepRun_succ]
  rw [if_neg (by norm_num), if_neg (by simp), sweepBody_eval_down3]
  rw [show (7:ℕ) = 6 + 1 from rfl, sweepRun_succ]
  rw [if_pos (by norm_num)]

/-- C10: with the stop button never pressed, `sweep` exits on its own
with the fuel `sweepFuelFor`, for every combination of parameters —
including `startAngle == endAngle`, where the very first advance already
satisfies the bound check `current <= startAngle` and increments the
cycle counter. -/
theorem sweep_terminates :
    ∀ (s : Servo) (a b sp c : ℚ),
      (Servo.sweep s a b sp c (fun _ => false) (sweepFuelFor a b c)).2 = true ∧
      (∀ (s2 : Servo) (x : ℚ) (d : ℤ),
        (sweepBody (constrain x 0 ANGLE_RANGE) (constrain x 0 ANGLE_RANGE)
          (sweepInit s2 (constrain x 0 ANGLE_RANGE) (constrain x 0 ANGLE_RANGE) d)).cycleCount
          = 1) := by
  intro s a b sp c
  refine ⟨sweep_always_done s a b sp c _, fun s2 x d => ?_⟩
  have hstep : (sweepInit s2 (constrain x 0 ANGLE_RANGE) (constrain x 0 ANGLE_RANGE) d).step
      = -1 := by
    show (if constrain x 0 ANGLE_RANGE < constrain x 0 ANGLE_RANGE then (1:ℚ) else -1) = -1
    rw [if_neg (lt_irrefl _)]
  have hc : constrain x 0 ANGLE_RANGE ≤
        (sweepInit s2 (constrain x 0 ANGLE_RANGE) (constrain x 0 ANGLE_RANGE) d).current +
          (sweepInit s2 (constrain x 0 ANGLE_RANGE) (constrain x 0 ANGLE_RANGE) d).step ∨
      (sweepInit s2 (constrain x 0 ANGLE_RANGE) (constrain x 0 ANGLE_RANGE) d).current +
          (sweepInit s2 (constrain x 0 ANGLE_RANGE) (constrain x 0 ANGLE_RANGE) d).step ≤
        constrain x 0 ANGLE_RANGE := by
    right
    show constrain x 0 ANGLE_RANGE +
        (sweepInit s2 (constrain x 0 ANGLE_RANGE) (constrain x 0 ANGLE_RANGE) d).step ≤
      constrain x 0 ANGLE_RANGE
    rw [hstep]
    linarith
  rw [sweepBody_fwd_pos _ _ _ rfl hc]
  rfl

/-- Counterexample for C4: `sweep(90, 90, 5, 1)` with the stop button
never pressed exits on its own (the loop flag is `true`, meaning the
loop's own condition ended it) with the cycle counter at 1 — the claim
that a `startAngle == endAngle` sweep never terminates without the stop
button is false. -/
theorem sweep_equal_bounds_cx :
    (Servo.sweep (newServo 0) 90 90 5 1 (fun _ => false) (sweepFuelFor 90 90 1)).2 = true ∧
    (Servo.sweep (newServo 0) 90 90 5 1 (fun _ => false)
      (sweepFuelFor 90 90 1)).1.cycleCount = 1 := by
  have hdone := sweep_always_done (newServo 0) 90 90 5 1 (fun _ => false)
  refine ⟨hdone, ?_⟩
  rw [Servo_sweep_def] at hdone ⊢
  rw [max_eval_one] at hdone ⊢
  have h0 : ((sweepInit (newServo 0) (constrain 90 0 ANGLE_RANGE) (constrain 90 0 ANGLE_RANGE)
      (jsRound (100 / constrain 5 1 10))).cycleCount : ℚ) < 1 + 1 := by
    show ((0:ℕ):ℚ) < 1 + 1
    norm_num
  obtain ⟨hge, hlt⟩ := sweepRun_exit_count _ _ _ _ _ h0 hdone
  set r := sweepRun (constrain 90 0 ANGLE_RANGE) (constrain 90 0 ANGLE_RANGE) 1
    (fun _ => false) (sweepFuelFor 90 90 1)
    (sweepInit (newServo 0) (constrain 90 0 ANGLE_RANGE) (constrain 90 0 ANGLE_RANGE)
      (jsRound (100 / constrain 5 1 10)))
  have h1 : 1 ≤ r.1.cycleCount := by exact_mod_cast hge
  have h2 : r.1.cycleCount < 1 + 1 := by exact_mod_cast hlt
  omega

/-- C4 amended: with `startAngle == endAngle` the bound check is
satisfied on the very first advance (see `sweep_terminates`), so with the
stop button never pressed the sweep terminates on its own after exactly
the clamped number of cycles — it does not rely on the stop button. -/
theorem sweep_equal_bounds_amended (s : Servo) (a sp : ℚ) (n : ℕ) (hn : 1 ≤ n) :
    (Servo.sweep s a a sp (n : ℚ) (fun _ => false) (sweepFuelFor a a (n : ℚ))).2 = true ∧
    (Servo.sweep s a a sp (n : ℚ) (fun _ => false) (sweepFuelFor a a (n : ℚ))).1.cycleCount
      = n := by
  have hdone := sweep_always_done s a a sp (n : ℚ) (fun _ => false)
  refine ⟨hdone, ?_⟩
  rw [Servo_sweep_def] at hdone ⊢
  have hmax : max 1 ((n:ℕ) : ℚ) = ((n:ℕ) : ℚ) := max_eq_right (by exact_mod_cast hn)
  rw [hmax] at hdone ⊢
  have h0 : ((sweepInit s (constrain a 0 ANGLE_RANGE) (constrain a 0 ANGLE_RANGE)
      (jsRound (100 / constrain sp 1 10))).cycleCount : ℚ) < (n:ℚ) + 1 := by
    show ((0:ℕ):ℚ) < (n:ℚ) + 1
    have h1 : (1:ℚ) ≤ (n:ℚ) := by exact_mod_cast hn
    push_cast
    linarith
  obtain ⟨hge, hlt⟩ := sweepRun_exit_count _ _ _ _ _ h0 hdone
  set r := sweepRun (constrain a 0 ANGLE_RANGE) (constrain a 0 ANGLE_RANGE) ((n:ℕ) : ℚ)
    (fun _ => false) (sweepFuelFor a a ((n:ℕ) : ℚ))
    (sweepInit s (constrain a 0 ANGLE_RANGE) (constrain a 0 ANGLE_RANGE)
      (jsRound (100 / constrain sp 1 10)))
  have h1 : n ≤ r.1.cycleCount := by exact_mod_cast hge
  have h2 : r.1.cycleCount < n + 1 := by exact_mod_cast hlt
  omega

/-- Witness for C4's amended claim at `a = 90`, `n = 1`. -/
theorem sweep_equal_bounds_amended_witness :
    1 ≤ 1 ∧
    ((Servo.sweep (newServo 0) 90 90 5 ((1:ℕ):ℚ) (fun _ => false)
        (sweepFuelFor 90 90 ((1:ℕ):ℚ))).2 = true ∧
      (Servo.sweep (newServo 0) 90 90 5 ((1:ℕ):ℚ) (fun _ => false)
        (sweepFuelFor 90 90 ((1:ℕ):ℚ))).1.cycleCount = 1) :=
  ⟨le_refl 1, sweep_equal_bounds_amended (newServo 0) 90 5 1 (le_refl 1)⟩

/-- Counterexample for C3: `sweep(0, 2, 5, 1)` with the button never
pressed exits with the cycle counter at 1 having written only the angles
0 and 1: it never reached the end bound as a written angle and performed
no backward leg at all, so the single counter increment did not
correspond to a completed forward-then-back traversal and no complete
round trip was performed. -/
theorem sweep_no_full_roundtrip_cx :
    (Servo.sweep (newServo 0) 0 2 5 1 (fun _ => false) 5).2 = true ∧
    (Servo.sweep (newServo 0) 0 2 5 1 (fun _ => false) 5).1.cycleCount = 1 ∧
    (Servo.sweep (newServo 0) 0 2 5 1 (fun _ => false) 5).1.angles = [0, 1] := by
  rw [sweep_eval_up]
  exact ⟨rfl, rfl, rfl⟩

/-- C3 amended: the cycle counter is incremented exactly when the forward
leg's advanced position reaches or overshoots a bound (once per forward
traversal — half of a round trip), never on the backward leg; with the
button never pressed the loop still terminates exactly when the counter
reaches the clamped requested cycles (the final counter `k` satisfies
`max 1 cycles ≤ k < max 1 cycles + 1`), so the final backward leg is
omitted rather than `cycles` full round trips being performed. -/
theorem sweep_cycle_counting_amended :
    (∀ (S E : ℚ) (st : LoopState), st.forward = true →
      ((sweepBody S E st).cycleCount = st.cycleCount + 1 ↔
        (E ≤ st.current + st.step ∨ st.current + st.step ≤ S))) ∧
    (∀ (S E : ℚ) (st : LoopState), st.forward = false →
      (sweepBody S E st).cycleCount = st.cycleCount) ∧
    (∀ (s : Servo) (a b sp c : ℚ) (fuel : ℕ),
      (Servo.sweep s a b sp c (fun _ => false) fuel).2 = true →
      max 1 c ≤ ((Servo.sweep s a b sp c (fun _ => false) fuel).1.cycleCount : ℚ) ∧
      ((Servo.sweep s a b sp c (fun _ => false) fuel).1.cycleCount : ℚ) < max 1 c + 1) := by
  refine ⟨fun S E st hf => ?_, fun S E st hf => ?_, fun s a b sp c fuel hdone => ?_⟩
  · by_cases hc : E ≤ st.current + st.step ∨ st.current + st.step ≤ S
    · rw [sweepBody_fwd_pos S E st hf hc]
      exact iff_of_true rfl hc
    · rw [sweepBody_fwd_neg S E st hf hc]
      exact iff_of_false (by simp) hc
  · by_cases hc : E ≤ st.current + st.step ∨ st.current + st.step ≤ S
    · rw [sweepBody_bwd_pos S E st hf hc]
    · rw [sweepBody_bwd_neg S E st hf hc]
  · rw [Servo_sweep_def] at hdone ⊢
    have h0 : ((sweepInit s (constrain a 0 ANGLE_RANGE) (constrain b 0 ANGLE_RANGE)
        (jsRound (100 / constrain sp 1 10))).cycleCount : ℚ) < max 1 c + 1 := by
      show ((0:ℕ):ℚ) < max 1 c + 1
      push_cast
      have := le_max_left (1:ℚ) c
      linarith
    exact sweepRun_exit_count _ _ _ _ _ h0 hdone

/-- Witness for C3's amended claim: a forward state at the bound, a
backward state at the bound, and the concrete sweep `sweep(0, 2, 5, 2)`. -/
theorem sweep_cycle_counting_amended_witness :
    ((sweepBody 0 2
        { servo := newServo 0, current := 1, step := 1, forward := true,
          cycleCount := 0, iter := 1, delayMs := 20, angles := [0] }).cycleCount = 0 + 1 ↔
      ((2:ℚ) ≤ 1 + 1 ∨ (1:ℚ) + 1 ≤ 0)) ∧
    (sweepBody 0 2
        { servo := newServo 0, current := 1, step := -1, forward := false,
          cycleCount := 1, iter := 2, delayMs := 20, angles := [] }).cycleCount = 1 ∧
    (max 1 (2:ℚ) ≤ ((Servo.sweep (newServo 0) 0 2 5 2 (fun _ => false)
        (sweepFuelFor 0 2 2)).1.cycleCount : ℚ) ∧
      ((Servo.sweep (newServo 0) 0 2 5 2 (fun _ => false)
        (sweepFuelFor 0 2 2)).1.cycleCount : ℚ) < max 1 (2:ℚ) + 1) :=
  ⟨sweep_cycle_counting_amended.1 0 2 _ rfl,
   sweep_cycle_counting_amended.2.1 0 2 _ rfl,
   sweep_cycle_counting_amended.2.2 (newServo 0) 0 2 5 2 (sweepFuelFor 0 2 2)
     (sweep_always_done (newServo 0) 0 2 5 2 (fun _ => false))⟩

/-- C5: if the stop-button trace reads pressed at every poll from
iteration `N` on, then a sweep with fuel at least `N + 2` exits (the
returned flag is `true`) after at most `N + 1` iterations — at most one
step beyond the step at which the stop input becomes and stays pressed,
regardless of how many cycles remain. -/
theorem sweep_button_cancellation :
    ∀ (s : Servo) (a b sp c : ℚ) (btn : ℕ → Bool) (N fuel : ℕ),
      (∀ n, N ≤ n → btn n = true) → N + 2 ≤ fuel →
      (Servo.sweep s a b sp c btn fuel).2 = true ∧
      (Servo.sweep s a b sp c btn fuel).1.iter ≤ N + 1 := by
  intro s a b sp c btn N fuel hb hfuel
  rw [Servo_sweep_def]
  have h := sweepRun_button (constrain a 0 ANGLE_RANGE) (constrain b 0 ANGLE_RANGE)
    (max 1 c) btn N hb fuel
    (sweepInit s (constrain a 0 ANGLE_RANGE) (constrain b 0 ANGLE_RANGE)
      (jsRound (100 / constrain sp 1 10))) (by omega)
    (by show N + 2 ≤ fuel + 0; omega)
  refine ⟨h.1, ?_⟩
  have h2 := h.2
  have h3 : max ((sweepInit s (constrain a 0 ANGLE_RANGE) (constrain b 0 ANGLE_RANGE)
      (jsRound (100 / constrain sp 1 10))).iter + 1) (N + 1) = N + 1 := by
    show max (0 + 1) (N + 1) = N + 1
    exact max_eq_right (by omega)
  rw [h3] at h2
  exact h2

/-- Witness for C5 with the button pressed from the start (`N = 0`). -/
theorem sweep_button_cancellation_witness :
    (∀ n : ℕ, 0 ≤ n → (fun _ : ℕ => true) n = true) ∧ 0 + 2 ≤ 5 ∧
    ((Servo.sweep (newServo 0) 0 180 5 3 (fun _ => true) 5).2 = true ∧
      (Servo.sweep (newServo 0) 0 180 5 3 (fun _ => true) 5).1.iter ≤ 0 + 1) :=
  ⟨fun n h => rfl, by decide,
    sweep_button_cancellation (newServo 0) 0 180 5 3 (fun _ => true) 0 5
      (fun n h => rfl) (by decide)⟩

/-- C9: a controller's stored `currentAngle` lies in `[0, 180]` after
construction (where it is 90) and after every sequence of `setAngle`,
`sweep`, `stop` and `getAngle` calls with arbitrary arguments — even
though `sweep`'s internal position variable can step outside `[0, 180]`
(concretely, `sweep(180, 0, 5, 2)` drives it to 181 while the stored
angle stays at 180), every stored value passes through the clamp in
`setAngle`. -/
theorem currentAngle_invariant :
    (∀ (ops : List ServoOp) (pin : ℕ),
      0 ≤ (ops.foldl applyOp (newServo pin)).currentAngle ∧
      (ops.foldl applyOp (newServo pin)).currentAngle ≤ ANGLE_RANGE) ∧
    (Servo.sweep (newServo 0) 180 0 5 2 (fun _ => false) 10).1.current = 181 ∧
    (Servo.sweep (newServo 0) 180 0 5 2 (fun _ => false) 10).1.servo.currentAngle = 180 := by
  refine ⟨fun ops pin => ?_, by rw [sweep_eval_down], ?_⟩
  case refine_2 =>
    rw [sweep_eval_down]
    exact constrain_eval_oneeighty
  have hstep : ∀ (s : Servo) (op : ServoOp), angleOK s → angleOK (applyOp s op) := by
    intro s op h
    cases op with
    | setAngle a => exact angleOK_setAngle s a
    | sweep a b sp c btn fuel =>
      show angleOK ((Servo.sweep s a b sp c btn fuel).1.servo)
      rw [Servo_sweep_def]
      exact sweepRun_angleOK _ _ _ btn fuel _ h
    | stop => exact h
    | getAngle => exact h
  have hfold : ∀ (ops2 : List ServoOp) (s : Servo), angleOK s →
      angleOK (ops2.foldl applyOp s) := by
    intro ops2
    induction ops2 with
    | nil => intro s h; exact h
    | cons op rest ih => intro s h; exact ih (applyOp s op) (hstep s op h)
  refine hfold ops (newServo pin) ?_
  constructor
  · show (0:ℚ) ≤ 90
    norm_num
  · show (90:ℚ) ≤ ANGLE_RANGE
    norm_num [ANGLE_RANGE]

end ServoSweeper
